import Mathlib

/-
Verification of the core orchestration layer of the PETALE experimentation pipeline:
dataset masking/statistics (src/data/processing/datasets.py), stratified
resampling (Datasets/Sampling.py), trainers (Training/Trainer.py,
src/models/custom_torch_base.py) and the evaluation loop
(Evaluation/Evaluator.py).

Modelling conventions:
* pandas DataFrames are modelled column-wise; a missing cell (NaN) is `none`.
* Continuous cell values are rationals (idealizing IEEE floats).
* Categorical cell values live in an arbitrary linearly ordered type `V`
  (idealizing Python strings under lexicographic order).
* numpy / pandas standard deviation returns the square root of a variance,
  an irrational number in general; since no claim depends on its numeric
  value, it is abstracted as an arbitrary function parameter `std_fn`
  (every theorem below holds uniformly in it).
* A raised Python exception is modelled by `Except.error`; pandas
  positional indexing (`DataFrame.iloc`) raises `IndexError` on an
  out-of-range positional index, which is modelled faithfully.
-/

namespace Petale

/-- pandas `DataFrame.iloc[mask]` restricted to one column: selects the rows
at the given positional indices, raising `IndexError` when an index is out of
range. -/
def iloc {α : Type} (col : List α) : List ℕ → Except String (List α)
  | [] => .ok []
  | i :: rest =>
    match col[i]? with
    | none => .error "IndexError: positional indexers are out-of-bounds"
    | some x =>
      match iloc col rest with
      | .error e => .error e
      | .ok l => .ok (x :: l)

/-- Row selection of a list of named columns, propagating `IndexError`. -/
def iloc_cols {α : Type} (cols : List (String × List α)) (mask : List ℕ) :
    Except String (List (String × List α)) :=
  match cols with
  | [] => .ok []
  | c :: rest =>
    match iloc c.2 mask with
    | .error e => .error e
    | .ok v =>
      match iloc_cols rest mask with
      | .error e => .error e
      | .ok r => .ok ((c.1, v) :: r)

/-- Total row selection: the sub-column of rows at the (in-range) positions. -/
def subframe {α : Type} (col : List α) (rows : List ℕ) : List α :=
  rows.filterMap (fun i => col[i]?)

/-- pandas `Series.mean()`: arithmetic mean of the non-missing entries
(NaN entries are skipped). -/
def nanmean (xs : List (Option ℚ)) : ℚ :=
  (xs.reduceOption.sum) / (xs.reduceOption.length : ℚ)

/-- The mode of one categorical column, as contributed to
`df[cat_cols].mode()`: the most frequent non-missing value; ties are broken
by taking the smallest value (pandas returns the modes sorted ascending).
`none` when the column has no non-missing value, i.e. the column contributes
no mode row (the frame-level `.iloc[0]` IndexError raised when every column
is in that situation is modelled by `cat_modes_row` below). -/
def catMode {V : Type} [LinearOrder V] (xs : List (Option V)) : Option V :=
  let v := xs.reduceOption
  List.foldl
    (fun acc c =>
      match acc with
      | none => some c
      | some b => if v.count b < v.count c then some c else acc)
    none (v.dedup.insertionSort (· ≤ ·))

/-- The original dataframe backing a dataset: participant ids, continuous
columns, categorical columns and the target column. -/
structure DataFrame (V : Type) where
  ids : List String
  contCols : List (String × List (Option ℚ))
  catCols : List (String × List (Option V))
  targets : List ℚ

/-- Number of rows of the backing frame. -/
def DataFrame.nRows {V : Type} (df : DataFrame V) : ℕ := df.ids.length

/-- All columns have the same length as the id column. -/
@[reducible] def DataFrame.WellFormed {V : Type} (df : DataFrame V) : Prop :=
  df.targets.length = df.nRows
    ∧ (∀ c ∈ df.contCols, c.2.length = df.nRows)
    ∧ (∀ c ∈ df.catCols, c.2.length = df.nRows)

/-- pandas `df.iloc[mask]` on the whole frame: selects the rows of every
column, raising `IndexError` on an out-of-range positional index. -/
def DataFrame.ilocRows {V : Type} (df : DataFrame V) (mask : List ℕ) :
    Except String (DataFrame V) :=
  match iloc df.ids mask, iloc_cols df.contCols mask,
        iloc_cols df.catCols mask, iloc df.targets mask with
  | .ok ids, .ok cont, .ok cat, .ok tg => .ok ⟨ids, cont, cat, tg⟩
  | .error e, _, _, _ => .error e
  | _, .error e, _, _ => .error e
  | _, _, .error e, _ => .error e
  | _, _, _, .error e => .error e

/-- State of a `CustomDataset` (src/data/processing/datasets.py): the original
data, ids, targets and the fixed encodings are set at construction; the three
masks and the derived feature matrices are overwritten by `update_masks`.
`encodings` lists, per categorical column, its category values in order
(the ordinal code of a value is its position). -/
structure CustomDataset (V : Type) where
  original_data : DataFrame V
  ids : List String
  y : List ℚ
  encodings : List (String × List V)
  train_mask : List ℕ
  valid_mask : Option (List ℕ)
  test_mask : List ℕ
  x_cont : List (List ℚ)
  x_cat : List (List ℕ)

/-- Modelled from the spec: `preprocess_continuous` lives in
src/data/processing/preprocessing.py which is not in the source tree; per the
spec it fills missing values with the training mean and then standardizes with
the training standard deviation, a zero standard deviation being treated as a
scale of 1. -/
def fill_normalize (mu sigma : ℚ) (col : List (Option ℚ)) : List ℚ :=
  col.map (fun o => ((o.getD mu) - mu) / (if sigma = 0 then 1 else sigma))

/-- Modelled from the spec: `preprocess_categoricals` lives in
src/data/processing/preprocessing.py which is not in the source tree; per the
spec it fills missing values with the training mode and then maps each value
to its fixed ordinal code established at construction time (its position in
the category list). A value outside the category list gets the out-of-table
sentinel code `cats.length`. -/
def encode_fill {V : Type} [DecidableEq V] (cats : List V) (mode : Option V)
    (col : List (Option V)) : List ℕ :=
  col.map (fun o =>
    match o.orElse (fun _ => mode) with
    | some v => cats.indexOf v
    | none => cats.length)

/-- pandas `train_data[cat_cols].mode().iloc[0]` (datasets.py lines 144-145)
on the already row-selected categorical columns: the mode frame has one row
per mode, so when every categorical column yields no mode (all its selected
values missing — in particular under an empty train mask) the frame has zero
rows and `.iloc[0]` raises `IndexError`. When `cat_cols` is None the source
installs a separate getter that returns None without calling `.mode()`;
that case is the empty column list here, which succeeds. -/
def cat_modes_row {V : Type} [LinearOrder V]
    (cols : List (String × List (Option V))) :
    Except String (List (Option V)) :=
  if cols ≠ [] ∧ ∀ c ∈ cols, catMode c.2 = none then
    .error "IndexError: single positional indexer is out-of-bounds"
  else .ok (cols.map (fun c => catMode c.2))

/-- The condition under which `train_data[cat_cols].mode().iloc[0]` succeeds:
there are no categorical columns, or the training row selection of at least
one categorical column has a mode. -/
@[reducible] def DataFrame.hasTrainModes {V : Type} [LinearOrder V]
    (df : DataFrame V) (mask : List ℕ) : Prop :=
  df.catCols = [] ∨ ∃ c ∈ df.catCols, catMode (subframe c.2 mask) ≠ none

/-- CustomDataset.current_train_stats: selects the training rows of the
original data (raising `IndexError` on an out-of-range training index exactly
as `self._original_data.iloc[self._train_mask]` would) and computes the
per-continuous-column mean and standard deviation and the
per-categorical-column modes row from those rows (the mode lookup raising
`IndexError` when no categorical column has a mode, as `.mode().iloc[0]`
does). -/
def current_train_stats {V : Type} [LinearOrder V]
    (std_fn : List (Option ℚ) → ℚ) (ds : CustomDataset V) :
    Except String (List (ℚ × ℚ) × List (Option V)) :=
  match ds.original_data.ilocRows ds.train_mask with
  | .error e => .error e
  | .ok td =>
    match cat_modes_row td.catCols with
    | .error e => .error e
    | .ok ms =>
      .ok (td.contCols.map (fun c => (nanmean c.2, std_fn c.2)), ms)

/-- CustomDataset.update_masks (as realized by the setters of PetaleNNDataset):
stores the new masks, recomputes the training statistics, and overwrites the
derived feature matrices, the setters working on copies of the original
data. -/
def update_masks {V : Type} [LinearOrder V]
    (std_fn : List (Option ℚ) → ℚ) (ds : CustomDataset V)
    (train_mask test_mask : List ℕ) (valid_mask : Option (List ℕ)) :
    Except String (CustomDataset V) :=
  let ds1 := { ds with train_mask := train_mask, valid_mask := valid_mask,
                       test_mask := test_mask }
  match current_train_stats std_fn ds1 with
  | .error e => .error e
  | .ok sm =>
    .ok { ds1 with
          x_cont := List.zipWith (fun c s => fill_normalize s.1 s.2 c.2)
                      ds1.original_data.contCols sm.1,
          x_cat := List.zipWith (fun p e => encode_fill e.2 p.2 p.1.2)
                      (ds1.original_data.catCols.zip sm.2) ds1.encodings }

/-- The statistics computed directly on the sub-frame of a list of rows,
ignoring all other rows; written from the words of the specification for
comparison with `current_train_stats`. -/
def stats_from_rows {V : Type} [LinearOrder V]
    (std_fn : List (Option ℚ) → ℚ) (df : DataFrame V) (rows : List ℕ) :
    List (ℚ × ℚ) × List (Option V) :=
  (df.contCols.map (fun c =>
      (nanmean (subframe c.2 rows), std_fn (subframe c.2 rows))),
   df.catCols.map (fun c => catMode (subframe c.2 rows)))

/-- The whole frame restricted (totally) to the rows at the given positions. -/
def DataFrame.subframeRows {V : Type} (df : DataFrame V) (mask : List ℕ) :
    DataFrame V :=
  ⟨subframe df.ids mask,
   df.contCols.map (fun c => (c.1, subframe c.2 mask)),
   df.catCols.map (fun c => (c.1, subframe c.2 mask)),
   subframe df.targets mask⟩

/-- The dataset state produced by a successful `update_masks` call: new masks,
and feature matrices rebuilt from the statistics of the new training rows. -/
def update_masks_result {V : Type} [LinearOrder V]
    (std_fn : List (Option ℚ) → ℚ) (ds : CustomDataset V)
    (train_mask test_mask : List ℕ) (valid_mask : Option (List ℕ)) :
    CustomDataset V :=
  { original_data := ds.original_data, ids := ds.ids, y := ds.y,
    encodings := ds.encodings,
    train_mask := train_mask, valid_mask := valid_mask, test_mask := test_mask,
    x_cont := List.zipWith (fun c s => fill_normalize s.1 s.2 c.2)
                ds.original_data.contCols
                (stats_from_rows std_fn ds.original_data train_mask).1,
    x_cat := List.zipWith (fun p e => encode_fill e.2 p.2 p.1.2)
                (ds.original_data.catCols.zip
                  (stats_from_rows std_fn ds.original_data train_mask).2)
                ds.encodings }

/-- Boolean success test for `update_masks`. -/
def update_masks_succeeds {V : Type} [LinearOrder V]
    (std_fn : List (Option ℚ) → ℚ) (ds : CustomDataset V)
    (train_mask test_mask : List ℕ) (valid_mask : Option (List ℕ)) : Bool :=
  match update_masks std_fn ds train_mask test_mask valid_mask with
  | .ok _ => true
  | .error _ => false

/-
Stratified resampling (Datasets/Sampling.py).

A dataframe row is modelled by its pandas index label together with its
target-column value; the target value lives in an arbitrary type `τ`
(numeric in the source). Randomness is abstracted: `pick l m` stands for
`DataFrame.sample(n=m)` (m rows drawn without replacement, in random order)
and is only constrained by the hypotheses of the theorems; `shuffle` stands
for `DataFrame.sample(frac=1)`; `qcut` stands for `pandas.qcut(col, q,
labels=False)`, the quantile bucketing function.
-/

/-- One row of the sampled dataframe: its pandas index label and its
target-column value. -/
structure SRow (τ : Type) where
  label : ℕ
  target : τ
deriving DecidableEq

/-- numpy `rint`: round half to even, as used in
`int(np.rint(n*len(x)/len(sample)))`. -/
def rint (q : ℚ) : ℤ :=
  let f := ⌊q⌋
  let r := q - f
  if r < 1/2 then f
  else if 1/2 < r then f + 1
  else if Even f then f else f + 1

/-- Number of rows sampled from a stratum of size `glen` when `n` rows are
requested out of `total`: `int(np.rint(n * glen / total))`. -/
def sample_count (n glen total : ℕ) : ℕ :=
  (rint ((n * glen : ℚ) / (total : ℚ))).toNat

/-- The stratification key of `stratified_sample`: the raw target value when
the target has at most 10 distinct values, and the quantile-bucket label
(over `quantiles` buckets) when it has more than 10. -/
def strat_key {τ : Type} [DecidableEq τ] (qcut : ℕ → List τ → τ → ℕ)
    (quantiles : ℕ) (df : List (SRow τ)) : SRow τ → τ ⊕ ℕ :=
  if 10 < (df.map SRow.target).dedup.length then
    fun r => Sum.inr (qcut quantiles (df.map SRow.target) r.target)
  else
    fun r => Sum.inl r.target

/-- The distinct stratum keys of a dataframe. -/
@[reducible] def strat_groups {τ κ : Type} [DecidableEq κ] (key : SRow τ → κ)
    (df : List (SRow τ)) : List κ :=
  (df.map key).dedup

/-- The rows of one stratum. -/
def group_rows {τ κ : Type} [DecidableEq κ] (key : SRow τ → κ)
    (df : List (SRow τ)) (k : κ) : List (SRow τ) :=
  df.filter (fun r => decide (key r = k))

/-- Datasets/Sampling.py `stratified_sample` for an absolute requested size
`n` (the source converts a fractional `n` to `int(n * df.shape[0])` first):
group the rows by the stratification key, draw
`int(np.rint(n*len(group)/len(df)))` rows without replacement from each
group, concatenate and shuffle (`.sample(frac=1)`). -/
def stratified_sample {τ : Type} [DecidableEq τ]
    (qcut : ℕ → List τ → τ → ℕ)
    (pick : List (SRow τ) → ℕ → List (SRow τ))
    (shuffle : List (SRow τ) → List (SRow τ))
    (df : List (SRow τ)) (n quantiles : ℕ) : List (SRow τ) :=
  let key := strat_key qcut quantiles df
  shuffle
    (((strat_groups key df).map (fun k =>
        let g := group_rows key df k
        pick g (sample_count n g.length df.length))).flatten)

/-- Datasets/Sampling.py `split_train_test`: the test partition is a
stratified sample and the train partition is the dataframe with the index
labels of the test rows dropped (`df.drop(test_data.index)`). -/
def split_train_test {τ : Type} [DecidableEq τ]
    (qcut : ℕ → List τ → τ → ℕ)
    (pick : List (SRow τ) → ℕ → List (SRow τ))
    (shuffle : List (SRow τ) → List (SRow τ))
    (df : List (SRow τ)) (n quantiles : ℕ) :
    List (SRow τ) × List (SRow τ) :=
  let test_data := stratified_sample qcut pick shuffle df n quantiles
  let train_data :=
    df.filter (fun r => decide (r.label ∉ test_data.map SRow.label))
  (train_data, test_data)

/-
Trainers (Training/Trainer.py and src/models/custom_torch_base.py).
-/

/-- numpy `mean` of a list of scores. -/
def np_mean (xs : List ℚ) : ℚ := xs.sum / (xs.length : ℚ)

/-- Trainer.inner_random_subsampling aggregation (Training/Trainer.py):
`standard_dev = 1 if len(scores) == 1 else std(scores)` followed by
`mean(scores) / standard_dev`. numpy `std` (an irrational square root) is
abstracted as the parameter `np_std`. -/
def inner_random_subsampling (np_std : List ℚ → ℚ) (scores : List ℚ) : ℚ :=
  let standard_dev := if scores.length = 1 then 1 else np_std scores
  np_mean scores / standard_dev

/-- NNTrainer.fit batch-size clamp: `if len(train_set) < self.batch_size:
self.batch_size = len(train_set)`. -/
def nn_effective_batch_size (n batch_size : ℕ) : ℕ :=
  if n < batch_size then n else batch_size

/-- NNTrainer.fit drop-last policy: the train loader is created with
`drop_last=True` exactly when `len(train_set) % self.batch_size == 1`
(after the clamp). -/
def nn_drop_last (n batch_size : ℕ) : Bool :=
  n % nn_effective_batch_size n batch_size == 1

/-- The sizes of the mini-batches served by a torch DataLoader over `n` rows
with batch size `bs`: full batches of size `bs`, plus the remainder batch
unless it is empty or `drop_last` is set. -/
def dataloader_batches (n bs : ℕ) (drop_last : Bool) : List ℕ :=
  List.replicate (n / bs) bs ++
    (if n % bs = 0 ∨ drop_last = true then [] else [n % bs])

/-- Modelled from the spec: the early stopper class
(src/training/early_stopping.py `EarlyStopper`, Training/EarlyStopping.py
`EarlyStopping`) is not in the source tree; per the spec it maintains the
best-seen validation score and the corresponding model weights (saved to a
temporary checkpoint file, modelled by the `checkpoint` field), counts
consecutive epochs without improvement, and signals early stop once
`patience` such epochs have passed. Validation losses live in an arbitrary
linearly ordered type `L`. -/
structure EarlyStopper (L M : Type) where
  patience : ℕ
  counter : ℕ
  best_loss : Option L
  checkpoint : Option M
  early_stop : Bool

/-- A freshly constructed early stopper. -/
def EarlyStopper.start {L M : Type} (patience : ℕ) : EarlyStopper L M :=
  ⟨patience, 0, none, none, false⟩

/-- Modelled from the spec: one `early_stopper(val_loss, model)` call. An
improvement of the best-seen validation loss saves the weights and resets the
counter; otherwise the counter increases and early stop is signalled once it
reaches `patience`. -/
def EarlyStopper.step {L M : Type} [LinearOrder L] (es : EarlyStopper L M)
    (val_loss : L) (model : M) : EarlyStopper L M :=
  match es.best_loss with
  | none =>
    { es with best_loss := some val_loss, checkpoint := some model,
              counter := 0 }
  | some b =>
    if val_loss < b then
      { es with best_loss := some val_loss, checkpoint := some model,
                counter := 0 }
    else
      { es with counter := es.counter + 1,
                early_stop := es.early_stop
                  || decide (es.patience ≤ es.counter + 1) }

/-- Result of a TorchCustomModel.fit call: the final model, one flag per
executed epoch recording whether the validation step signalled early stop,
and the surviving temporary checkpoint file (if any). -/
structure TorchFitResult (M : Type) where
  model : M
  epoch_flags : List Bool
  checkpoint_file : Option M

/-- The epoch loop of TorchCustomModel.fit: each epoch runs one training
step and one validation step, and the loop breaks as soon as the validation
step signals early stop. -/
def torch_fit_loop {L M : Type} [LinearOrder L] (train_step : M → M)
    (valid_loss : M → L) :
    ℕ → M → EarlyStopper L M → M × EarlyStopper L M × List Bool
  | 0, m, es => (m, es, [])
  | fuel + 1, m, es =>
    let m' := train_step m
    let es' := es.step (valid_loss m') m'
    if es'.early_stop then (m', es', [true])
    else
      let r := torch_fit_loop train_step valid_loss fuel m' es'
      (r.1, r.2.1, false :: r.2.2)

/-- TorchCustomModel.fit (src/models/custom_torch_base.py) with a validation
set present: runs the epoch loop (breaking on early stop), then loads the
best parameters from the early stopper and removes its checkpoint file. -/
def torch_fit {L M : Type} [LinearOrder L] (max_epochs patience : ℕ)
    (train_step : M → M) (valid_loss : M → L) (m0 : M) : TorchFitResult M :=
  let r := torch_fit_loop train_step valid_loss max_epochs m0
             (EarlyStopper.start patience)
  { model := r.2.1.checkpoint.getD r.1,
    epoch_flags := r.2.2,
    checkpoint_file := none }

/-- Result of an NNTrainer.fit call: the final model, the number of executed
training epochs, one early-stop flag per epoch, and the surviving temporary
checkpoint file (if any). -/
structure NNFitResult (M : Type) where
  model : M
  train_steps : ℕ
  epoch_flags : List Bool
  checkpoint_file : Option M

/-- The epoch loop of NNTrainer.fit (Training/Trainer.py): every epoch runs
one training pass and one evaluation pass; when early stopping is activated
and the stopper has signalled, the model is replaced by the best checkpoint,
but the loop itself never breaks: it always runs all remaining epochs. -/
def nn_fit_loop {L M : Type} [LinearOrder L] (train_step : M → M)
    (valid_loss : M → L) (es_activated : Bool) :
    ℕ → M → EarlyStopper L M → M × EarlyStopper L M × ℕ × List Bool
  | 0, m, es => (m, es, 0, [])
  | fuel + 1, m, es =>
    let m' := train_step m
    let l := valid_loss m'
    let es' := if es_activated then es.step l m' else es
    let m'' := if es_activated && es'.early_stop then es'.checkpoint.getD m'
               else m'
    let r := nn_fit_loop train_step valid_loss es_activated fuel m'' es'
    (r.1, r.2.1, r.2.2.1 + 1, es'.early_stop :: r.2.2.2)

/-- NNTrainer.fit (Training/Trainer.py): runs every configured epoch (the
loop contains no break), and never removes the checkpoint file saved by the
early stopper (the checkpoints directory is only deleted by
NNEvaluator.nested_cross_valid after the whole evaluation). -/
def nn_fit {L M : Type} [LinearOrder L] (epochs patience : ℕ)
    (train_step : M → M) (valid_loss : M → L) (m0 : M)
    (es_activated : Bool) : NNFitResult M :=
  let r := nn_fit_loop train_step valid_loss es_activated epochs m0
             (EarlyStopper.start patience)
  { model := r.1,
    train_steps := r.2.2.1,
    epoch_flags := r.2.2.2,
    checkpoint_file := r.2.1.checkpoint }

/-
Evaluator (Evaluation/Evaluator.py).

The body of one outer fold of `nested_cross_valid` (tuning, training,
predicting, scoring, recording) is abstracted as a fallible computation
`run_fold : ℕ → Except ε ρ`; an exception raised inside the body propagates,
because the loop contains no try/except.
-/

/-- The outer fold loop of Evaluator.nested_cross_valid: a plain Python
`for` loop with no exception handler, so the first fold that raises aborts
the remaining iterations. -/
def fold_loop {ε ρ : Type} (run_fold : ℕ → Except ε ρ) :
    List ℕ → Except ε (List ρ)
  | [] => .ok []
  | i :: rest =>
    match run_fold i with
    | .error e => .error e
    | .ok r =>
      match fold_loop run_fold rest with
      | .error e => .error e
      | .ok rs => .ok (r :: rs)

/-- Evaluator.nested_cross_valid: executes the fold body for
`k in range(self.k)`. -/
def nested_cross_valid {ε ρ : Type} (k : ℕ) (run_fold : ℕ → Except ε ρ) :
    Except ε (List ρ) :=
  fold_loop run_fold (List.range k)

/-
Concrete fixtures used by witnesses and counterexamples.
-/

/-- A concrete stand-in for the abstracted numpy standard deviation. -/
def std1 : List (Option ℚ) → ℚ := fun _ => 1

/-- A two-row frame with one continuous column (with a missing value) and
one categorical column. -/
def wdf : DataFrame ℕ :=
  ⟨["p1", "p2"], [("age", [some 2, none])], [("sex", [some 0, some 1])],
   [1, 2]⟩

/-- A dataset over `wdf` before any mask update. -/
def wds : CustomDataset ℕ :=
  ⟨wdf, ["p1", "p2"], [1, 2], [("sex", [0, 1])], [], none, [], [], []⟩

/-- The state of `wds` after `update_masks` with training rows `[0]`:
the missing continuous value is imputed with the training mean 2 and both
entries normalize to 0; the categorical column is encoded by its fixed
ordinal codes. -/
def wds' : CustomDataset ℕ :=
  ⟨wdf, ["p1", "p2"], [1, 2], [("sex", [0, 1])], [0], none, [],
   [[0, 0]], [[0, 1]]⟩

/-- A three-row frame with a single categorical column, used to exercise
`update_masks` with overlapping masks. -/
def dsC2 : CustomDataset ℕ :=
  ⟨⟨["p1", "p2", "p3"], [], [("sex", [some 0, some 1, some 0])], [0, 1, 2]⟩,
   ["p1", "p2", "p3"], [0, 1, 2], [("sex", [0, 1])], [], none, [], [], []⟩

/-- Deterministic stand-in for `DataFrame.sample(n=m)`: take the first `m`
rows. -/
def pick_take {τ : Type} : List (SRow τ) → ℕ → List (SRow τ) :=
  fun l m => l.take m

/-- Trivial quantile bucketing stand-in. -/
def qcut0 : ℕ → List ℕ → ℕ → ℕ := fun _ _ _ => 0

/-- A four-row fixture frame with two strata (target values 0 and 1). -/
def wsdf : List (SRow ℕ) := [⟨0, 0⟩, ⟨1, 0⟩, ⟨2, 1⟩, ⟨3, 1⟩]

/-- A fold body for three folds whose middle fold raises (e.g. a metric
undefined for the label distribution of the fold). -/
def c6_run_fold : ℕ → Except String ℕ :=
  fun i =>
    if i = 1 then
      .error "AUC undefined: only one class present in fold test set"
    else .ok i

lemma iloc_ok_elim {α : Type} {col : List α} {mask : List ℕ} {l : List α}
    (h : iloc col mask = .ok l) : l = subframe col mask := by
  induction mask generalizing l with
  | nil =>
    simp only [iloc, Except.ok.injEq] at h
    simp [subframe, ← h]
  | cons i rest ih =>
    simp only [iloc] at h
    cases hg : col[i]? with
    | none => rw [hg] at h; exact absurd h (by simp)
    | some x =>
      rw [hg] at h
      cases hr : iloc col rest with
      | error e => rw [hr] at h; exact absurd h (by simp)
      | ok l' =>
        rw [hr] at h
        simp only [Except.ok.injEq] at h
        subst h
        simp only [subframe, List.filterMap_cons, hg, List.cons.injEq, true_and]
        exact ih hr

lemma iloc_ok_of_lt {α : Type} {col : List α} {mask : List ℕ}
    (h : ∀ i ∈ mask, i < col.length) :
    iloc col mask = .ok (subframe col mask) := by
  induction mask with
  | nil => simp [iloc, subframe]
  | cons i rest ih =>
    have hi : i < col.length := h i (by simp)
    have hx : col[i]? = some col[i] := List.getElem?_eq_getElem hi
    simp only [iloc, hx, ih (fun j hj => h j (by simp [hj])), subframe,
      List.filterMap_cons]

lemma iloc_error_of_not_lt {α : Type} {col : List α} {mask : List ℕ}
    (h : ¬ ∀ i ∈ mask, i < col.length) :
    iloc col mask = .error "IndexError: positional indexers are out-of-bounds" := by
  induction mask with
  | nil => simp at h
  | cons i rest ih =>
    by_cases hi : i < col.length
    · have hx : col[i]? = some col[i] := List.getElem?_eq_getElem hi
      have hrest : ¬ ∀ j ∈ rest, j < col.length := by
        intro hall
        apply h
        intro j hj
        rcases List.mem_cons.mp hj with h1 | h2
        · exact h1 ▸ hi
        · exact hall j h2
      simp [iloc, hx, ih hrest]
    · have hx : col[i]? = none := by
        rw [List.getElem?_eq_none]
        omega
      simp [iloc, hx]

lemma iloc_cols_ok_elim {α : Type} {cols : List (String × List α)}
    {mask : List ℕ} {out : List (String × List α)}
    (h : iloc_cols cols mask = .ok out) :
    out = cols.map (fun c => (c.1, subframe c.2 mask)) := by
  induction cols generalizing out with
  | nil =>
    simp only [iloc_cols, Except.ok.injEq] at h
    simp [← h]
  | cons c rest ih =>
    simp only [iloc_cols] at h
    cases hv : iloc c.2 mask with
    | error e => rw [hv] at h; exact absurd h (by simp)
    | ok v =>
      rw [hv] at h
      cases hr : iloc_cols rest mask with
      | error e => rw [hr] at h; exact absurd h (by simp)
      | ok r =>
        rw [hr] at h
        simp only [Except.ok.injEq] at h
        subst h
        simp [List.map_cons, ← ih hr, iloc_ok_elim hv]

lemma iloc_cols_ok_of_lt {α : Type} {cols : List (String × List α)}
    {mask : List ℕ} (h : ∀ c ∈ cols, ∀ i ∈ mask, i < c.2.length) :
    iloc_cols cols mask = .ok (cols.map (fun c => (c.1, subframe c.2 mask))) := by
  induction cols with
  | nil => simp [iloc_cols]
  | cons c rest ih =>
    simp only [iloc_cols, iloc_ok_of_lt (h c (by simp)),
      ih (fun d hd => h d (by simp [hd])), List.map_cons]

lemma ilocRows_ok_elim {V : Type} {df : DataFrame V} {mask : List ℕ}
    {td : DataFrame V} (h : df.ilocRows mask = .ok td) :
    td = df.subframeRows mask := by
  unfold DataFrame.ilocRows at h
  cases h1 : iloc df.ids mask with
  | error e => rw [h1] at h; exact absurd h (by simp)
  | ok ids =>
    rw [h1] at h
    cases h2 : iloc_cols df.contCols mask with
    | error e => rw [h2] at h; exact absurd h (by simp)
    | ok cont =>
      rw [h2] at h
      cases h3 : iloc_cols df.catCols mask with
      | error e => rw [h3] at h; exact absurd h (by simp)
      | ok cat =>
        rw [h3] at h
        cases h4 : iloc df.targets mask with
        | error e => rw [h4] at h; exact absurd h (by simp)
        | ok tg =>
          rw [h4] at h
          simp only [Except.ok.injEq] at h
          rw [← h]
          simp [DataFrame.subframeRows, iloc_ok_elim h1, iloc_cols_ok_elim h2,
            iloc_cols_ok_elim h3, iloc_ok_elim h4]

lemma ilocRows_ok_of_lt {V : Type} {df : DataFrame V} {mask : List ℕ}
    (hwf : df.WellFormed) (h : ∀ i ∈ mask, i < df.nRows) :
    df.ilocRows mask = .ok (df.subframeRows mask) := by
  obtain ⟨ht, hcont, hcat⟩ := hwf
  have h1 : iloc df.ids mask = .ok (subframe df.ids mask) := iloc_ok_of_lt h
  have h2 : iloc_cols df.contCols mask
      = .ok (df.contCols.map (fun c => (c.1, subframe c.2 mask))) :=
    iloc_cols_ok_of_lt (fun c hc i hi => by rw [hcont c hc]; exact h i hi)
  have h3 : iloc_cols df.catCols mask
      = .ok (df.catCols.map (fun c => (c.1, subframe c.2 mask))) :=
    iloc_cols_ok_of_lt (fun c hc i hi => by rw [hcat c hc]; exact h i hi)
  have h4 : iloc df.targets mask = .ok (subframe df.targets mask) :=
    iloc_ok_of_lt (fun i hi => by rw [ht]; exact h i hi)
  unfold DataFrame.ilocRows
  rw [h1, h2, h3, h4]
  rfl

lemma ilocRows_error_of_not_lt {V : Type} {df : DataFrame V} {mask : List ℕ}
    (h : ¬ ∀ i ∈ mask, i < df.nRows) :
    df.ilocRows mask
      = .error "IndexError: positional indexers are out-of-bounds" := by
  unfold DataFrame.ilocRows
  rw [iloc_error_of_not_lt h]
  cases iloc_cols df.contCols mask <;> cases iloc_cols df.catCols mask <;>
    cases iloc df.targets mask <;> rfl

lemma cat_modes_row_ok_elim {V : Type} [LinearOrder V]
    {cols : List (String × List (Option V))} {ms : List (Option V)}
    (h : cat_modes_row cols = .ok ms) :
    ms = cols.map (fun c => catMode c.2) := by
  unfold cat_modes_row at h
  split at h
  · exact absurd h (by simp)
  · simp only [Except.ok.injEq] at h
    exact h.symm

lemma cat_modes_row_ok_of {V : Type} [LinearOrder V]
    {cols : List (String × List (Option V))}
    (h : cols = [] ∨ ∃ c ∈ cols, catMode c.2 ≠ none) :
    cat_modes_row cols = .ok (cols.map (fun c => catMode c.2)) := by
  unfold cat_modes_row
  rw [if_neg]
  rcases h with h | ⟨c, hc, hm⟩
  · exact fun hcon => hcon.1 h
  · exact fun hcon => hm (hcon.2 c hc)

lemma cat_modes_row_error_of {V : Type} [LinearOrder V]
    {cols : List (String × List (Option V))}
    (h1 : cols ≠ []) (h2 : ∀ c ∈ cols, catMode c.2 = none) :
    cat_modes_row cols
      = .error "IndexError: single positional indexer is out-of-bounds" := by
  unfold cat_modes_row
  rw [if_pos ⟨h1, h2⟩]

lemma hasTrainModes_subframe {V : Type} [LinearOrder V]
    {df : DataFrame V} {mask : List ℕ} (hm : df.hasTrainModes mask) :
    (df.subframeRows mask).catCols = []
      ∨ ∃ c ∈ (df.subframeRows mask).catCols, catMode c.2 ≠ none := by
  rcases hm with h0 | ⟨c, hc, hne⟩
  · left
    simp [DataFrame.subframeRows, h0]
  · right
    exact ⟨(c.1, subframe c.2 mask), List.mem_map.mpr ⟨c, hc, rfl⟩, hne⟩

lemma current_train_stats_ok_elim {V : Type} [LinearOrder V]
    {std_fn : List (Option ℚ) → ℚ} {ds : CustomDataset V}
    {sm : List (ℚ × ℚ) × List (Option V)}
    (h : current_train_stats std_fn ds = .ok sm) :
    sm = stats_from_rows std_fn ds.original_data ds.train_mask := by
  unfold current_train_stats at h
  cases hr : ds.original_data.ilocRows ds.train_mask with
  | error e => rw [hr] at h; exact absurd h (by simp)
  | ok td =>
    rw [hr] at h
    simp only [] at h
    cases hm : cat_modes_row td.catCols with
    | error e => rw [hm] at h; exact absurd h (by simp)
    | ok ms =>
      rw [hm] at h
      simp only [Except.ok.injEq] at h
      rw [← h, cat_modes_row_ok_elim hm, ilocRows_ok_elim hr]
      simp [stats_from_rows, DataFrame.subframeRows, List.map_map]

lemma current_train_stats_eq_of {V : Type} [LinearOrder V]
    (std_fn : List (Option ℚ) → ℚ) {ds1 ds2 : CustomDataset V}
    (ho : ds1.original_data = ds2.original_data)
    (hm : ds1.train_mask = ds2.train_mask) :
    current_train_stats std_fn ds1 = current_train_stats std_fn ds2 := by
  unfold current_train_stats
  rw [ho, hm]

lemma current_train_stats_ok_of_lt {V : Type} [LinearOrder V]
    (std_fn : List (Option ℚ) → ℚ) {ds : CustomDataset V}
    (hwf : ds.original_data.WellFormed)
    (h : ∀ i ∈ ds.train_mask, i < ds.original_data.nRows)
    (hm : ds.original_data.hasTrainModes ds.train_mask) :
    current_train_stats std_fn ds
      = .ok (stats_from_rows std_fn ds.original_data ds.train_mask) := by
  have hmr : cat_modes_row
      ((ds.original_data.subframeRows ds.train_mask).catCols)
      = .ok (((ds.original_data.subframeRows ds.train_mask).catCols).map
          (fun c => catMode c.2)) :=
    cat_modes_row_ok_of (hasTrainModes_subframe hm)
  simp only [DataFrame.subframeRows] at hmr
  unfold current_train_stats
  rw [ilocRows_ok_of_lt hwf h]
  simp [hmr, stats_from_rows, DataFrame.subframeRows, List.map_map]

lemma current_train_stats_error_of_no_modes {V : Type} [LinearOrder V]
    (std_fn : List (Option ℚ) → ℚ) {ds : CustomDataset V}
    (hwf : ds.original_data.WellFormed)
    (hlt : ∀ i ∈ ds.train_mask, i < ds.original_data.nRows)
    (h1 : ds.original_data.catCols ≠ [])
    (h2 : ∀ c ∈ ds.original_data.catCols,
      catMode (subframe c.2 ds.train_mask) = none) :
    current_train_stats std_fn ds
      = .error "IndexError: single positional indexer is out-of-bounds" := by
  have h1' : (ds.original_data.subframeRows ds.train_mask).catCols ≠ [] := by
    simp only [DataFrame.subframeRows]
    simpa using h1
  have h2' : ∀ c ∈ (ds.original_data.subframeRows ds.train_mask).catCols,
      catMode c.2 = none := by
    intro c hc
    simp only [DataFrame.subframeRows] at hc
    obtain ⟨c0, hc0, rfl⟩ := List.mem_map.mp hc
    exact h2 c0 hc0
  have hmr := cat_modes_row_error_of h1' h2'
  simp only [DataFrame.subframeRows] at hmr
  unfold current_train_stats
  rw [ilocRows_ok_of_lt hwf hlt]
  simp [hmr, DataFrame.subframeRows]

lemma update_masks_ok_elim {V : Type} [LinearOrder V]
    {std_fn : List (Option ℚ) → ℚ} {ds ds' : CustomDataset V}
    {tr te : List ℕ} {va : Option (List ℕ)}
    (h : update_masks std_fn ds tr te va = .ok ds') :
    ds' = update_masks_result std_fn ds tr te va
      ∧ current_train_stats std_fn
          ({ ds with train_mask := tr, valid_mask := va, test_mask := te }
            : CustomDataset V)
        = .ok (stats_from_rows std_fn ds.original_data tr) := by
  unfold update_masks at h
  simp only [] at h
  cases hcs : current_train_stats std_fn
      { ds with train_mask := tr, valid_mask := va, test_mask := te } with
  | error e => rw [hcs] at h; exact absurd h (by simp)
  | ok sm =>
    rw [hcs] at h
    simp only [Except.ok.injEq] at h
    have hsm := current_train_stats_ok_elim hcs
    constructor
    · rw [← h, hsm]
      rfl
    · rw [hsm]

lemma update_masks_ok_of_lt {V : Type} [LinearOrder V]
    (std_fn : List (Option ℚ) → ℚ) {ds : CustomDataset V}
    {tr : List ℕ} (te : List ℕ) (va : Option (List ℕ))
    (hwf : ds.original_data.WellFormed)
    (h : ∀ i ∈ tr, i < ds.original_data.nRows)
    (hm : ds.original_data.hasTrainModes tr) :
    update_masks std_fn ds tr te va
      = .ok (update_masks_result std_fn ds tr te va) := by
  have hcs : current_train_stats std_fn
      ({ ds with train_mask := tr, valid_mask := va, test_mask := te }
        : CustomDataset V)
      = .ok (stats_from_rows std_fn ds.original_data tr) :=
    current_train_stats_ok_of_lt std_fn hwf h hm
  unfold update_masks
  simp only []
  rw [hcs]
  rfl

lemma update_masks_error_of_no_modes {V : Type} [LinearOrder V]
    (std_fn : List (Option ℚ) → ℚ) {ds : CustomDataset V}
    {tr : List ℕ} (te : List ℕ) (va : Option (List ℕ))
    (hwf : ds.original_data.WellFormed)
    (hlt : ∀ i ∈ tr, i < ds.original_data.nRows)
    (h1 : ds.original_data.catCols ≠ [])
    (h2 : ∀ c ∈ ds.original_data.catCols,
      catMode (subframe c.2 tr) = none) :
    update_masks std_fn ds tr te va
      = .error "IndexError: single positional indexer is out-of-bounds" := by
  have hcs : current_train_stats std_fn
      ({ ds with train_mask := tr, valid_mask := va, test_mask := te }
        : CustomDataset V)
      = .error "IndexError: single positional indexer is out-of-bounds" :=
    current_train_stats_error_of_no_modes std_fn hwf hlt h1 h2
  unfold update_masks
  simp only []
  rw [hcs]

lemma update_masks_error_of_not_lt {V : Type} [LinearOrder V]
    (std_fn : List (Option ℚ) → ℚ) {ds : CustomDataset V}
    {tr : List ℕ} (te : List ℕ) (va : Option (List ℕ))
    (h : ¬ ∀ i ∈ tr, i < ds.original_data.nRows) :
    update_masks std_fn ds tr te va
      = .error "IndexError: positional indexers are out-of-bounds" := by
  unfold update_masks
  simp only []
  unfold current_train_stats
  rw [ilocRows_error_of_not_lt h]

lemma update_masks_congr {V : Type} [LinearOrder V]
    (std_fn : List (Option ℚ) → ℚ) (tr te : List ℕ) (va : Option (List ℕ))
    {ds1 ds2 : CustomDataset V}
    (ho : ds1.original_data = ds2.original_data)
    (hi : ds1.ids = ds2.ids) (hy : ds1.y = ds2.y)
    (he : ds1.encodings = ds2.encodings) :
    update_masks std_fn ds1 tr te va = update_masks std_fn ds2 tr te va := by
  have hcs : current_train_stats std_fn
      ({ ds1 with train_mask := tr, valid_mask := va, test_mask := te }
        : CustomDataset V)
      = current_train_stats std_fn
      ({ ds2 with train_mask := tr, valid_mask := va, test_mask := te }
        : CustomDataset V) :=
    current_train_stats_eq_of std_fn ho rfl
  unfold update_masks
  simp only []
  rw [hcs]
  cases current_train_stats std_fn
      ({ ds2 with train_mask := tr, valid_mask := va, test_mask := te }
        : CustomDataset V) with
  | error e => rfl
  | ok sm => simp [ho, hi, hy, he]

lemma wupdate : update_masks std1 wds [0] [] none = .ok wds' := by
  have h := update_masks_ok_of_lt std1 [] none
    (show wds.original_data.WellFormed by decide)
    (show ∀ i ∈ ([0] : List ℕ), i < wds.original_data.nRows by decide)
    (show wds.original_data.hasTrainModes [0] by decide)
  rw [h]
  simp only [Except.ok.injEq]
  norm_num [update_masks_result, stats_from_rows, subframe, nanmean, std1,
    fill_normalize, encode_fill, catMode, wds, wdf, wds', List.filterMap,
    List.reduceOption, List.dedup, List.insertionSort, List.orderedInsert,
    List.indexOf, List.zipWith, List.findIdx_cons]
  decide

/-- C1: after `update_masks` with training rows `A`, the statistics exposed by
`current_train_stats` (per-continuous-column mean and standard deviation,
per-categorical-column mode) are exactly the ones computed directly on the
sub-frame of rows `A` alone — validation and test rows are never involved —
and the exposed feature matrices `x_cont`/`x_cat` are imputed, normalized and
encoded using exactly those statistics. -/
theorem update_masks_uses_train_stats_only {V : Type} [LinearOrder V]
    (std_fn : List (Option ℚ) → ℚ) (ds ds' : CustomDataset V)
    (A te : List ℕ) (va : Option (List ℕ))
    (h : update_masks std_fn ds A te va = .ok ds') :
    current_train_stats std_fn ds'
        = .ok (stats_from_rows std_fn ds.original_data A)
      ∧ ds'.x_cont = List.zipWith (fun c s => fill_normalize s.1 s.2 c.2)
          ds.original_data.contCols
          (stats_from_rows std_fn ds.original_data A).1
      ∧ ds'.x_cat = List.zipWith (fun p e => encode_fill e.2 p.2 p.1.2)
          (ds.original_data.catCols.zip
            (stats_from_rows std_fn ds.original_data A).2)
          ds.encodings := by
  obtain ⟨hds, hcs⟩ := update_masks_ok_elim h
  subst hds
  refine ⟨?_, rfl, rfl⟩
  have heq : current_train_stats std_fn (update_masks_result std_fn ds A te va)
      = current_train_stats std_fn
        ({ ds with train_mask := A, valid_mask := va, test_mask := te }
          : CustomDataset V) :=
    current_train_stats_eq_of std_fn rfl rfl
  rw [heq, hcs]

/-- C1 witness: a concrete dataset where the masked update succeeds and the
statistics agree with the direct sub-frame computation. -/
theorem update_masks_uses_train_stats_only_witness :
    update_masks std1 wds [0] [] none = .ok wds'
      ∧ current_train_stats std1 wds'
          = .ok (stats_from_rows std1 wds.original_data [0]) :=
  ⟨wupdate,
   (update_masks_uses_train_stats_only std1 wds wds' [0] [] none wupdate).1⟩

/-- C2 counterexample: `update_masks` does not validate that the train and
test masks are disjoint — with train mask `[0, 1]` and test mask `[1, 2]`
(overlapping on row 1) it succeeds instead of raising a DataIntegrityError
(no such validation, or error class, exists in the code). -/
theorem update_masks_accepts_overlap :
    update_masks_succeeds std1 dsC2 [0, 1] [1, 2] none = true
      ∧ 1 ∈ ([0, 1] : List ℕ) ∧ 1 ∈ ([1, 2] : List ℕ) := by
  refine ⟨by decide, by decide, by decide⟩

/-- C2 (amended): `update_masks` performs no validation of the supplied
masks — it never checks index ranges or train/test disjointness, and no
DataIntegrityError exists. Whenever the pandas operations inside the
statistics recomputation succeed (the train indices are in range and the
selected training rows yield at least one categorical mode, vacuously so
without categorical columns), the call succeeds for arbitrary — possibly
overlapping or out-of-range — test and valid masks. The only failures are
pandas errors from that recomputation: the row-selection IndexError on an
out-of-range train index, and the `.mode().iloc[0]` IndexError when no
categorical column of the selected training rows has a mode (for example an
empty train mask with categorical columns). -/
theorem update_masks_no_validation {V : Type} [LinearOrder V]
    (std_fn : List (Option ℚ) → ℚ) (ds : CustomDataset V)
    (tr te : List ℕ) (va : Option (List ℕ))
    (hwf : ds.original_data.WellFormed) :
    ((∀ i ∈ tr, i < ds.original_data.nRows) →
        ds.original_data.hasTrainModes tr →
        update_masks std_fn ds tr te va
          = .ok (update_masks_result std_fn ds tr te va))
      ∧ ((¬ ∀ i ∈ tr, i < ds.original_data.nRows) →
        update_masks std_fn ds tr te va
          = .error "IndexError: positional indexers are out-of-bounds")
      ∧ ((∀ i ∈ tr, i < ds.original_data.nRows) →
        ds.original_data.catCols ≠ [] →
        (∀ c ∈ ds.original_data.catCols,
          catMode (subframe c.2 tr) = none) →
        update_masks std_fn ds tr te va
          = .error "IndexError: single positional indexer is out-of-bounds") :=
  ⟨fun h hm => update_masks_ok_of_lt std_fn te va hwf h hm,
   fun h => update_masks_error_of_not_lt std_fn te va h,
   fun hlt h1 h2 => update_masks_error_of_no_modes std_fn te va hwf hlt h1 h2⟩

/-- C2 witness: on a concrete dataset, overlapping train/test masks are
accepted; an out-of-range train index produces the row-selection pandas
IndexError; and an in-range train mask whose categorical selection has no
mode (here the empty mask) produces the `.mode().iloc[0]` pandas
IndexError. -/
theorem update_masks_no_validation_witness :
    dsC2.original_data.WellFormed
      ∧ update_masks std1 dsC2 [0, 1] [1, 2] none
          = .ok (update_masks_result std1 dsC2 [0, 1] [1, 2] none)
      ∧ update_masks std1 dsC2 [5] [] none
          = .error "IndexError: positional indexers are out-of-bounds"
      ∧ update_masks std1 dsC2 [] [] none
          = .error "IndexError: single positional indexer is out-of-bounds" :=
  ⟨by decide,
   (update_masks_no_validation std1 dsC2 [0, 1] [1, 2] none (by decide)).1
     (by decide) (by decide),
   (update_masks_no_validation std1 dsC2 [5] [] none (by decide)).2.1
     (by decide),
   (update_masks_no_validation std1 dsC2 [] [] none (by decide)).2.2
     (by decide) (by decide) (by decide)⟩

/-- C3: `update_masks` is idempotent — a second call with identical arguments
returns exactly the state produced by the first call, in particular
bit-identical `x_cont`/`x_cat` matrices. -/
theorem update_masks_idempotent {V : Type} [LinearOrder V]
    (std_fn : List (Option ℚ) → ℚ) (ds ds' : CustomDataset V)
    (tr te : List ℕ) (va : Option (List ℕ))
    (h : update_masks std_fn ds tr te va = .ok ds') :
    update_masks std_fn ds' tr te va = .ok ds' := by
  obtain ⟨hds, -⟩ := update_masks_ok_elim h
  subst hds
  have hcongr : update_masks std_fn (update_masks_result std_fn ds tr te va)
        tr te va
      = update_masks std_fn ds tr te va :=
    update_masks_congr std_fn tr te va rfl rfl rfl rfl
  rw [hcongr, h]

/-- C3 witness: the second identical call on the concrete dataset returns the
exact state of the first. -/
theorem update_masks_idempotent_witness :
    update_masks std1 wds [0] [] none = .ok wds'
      ∧ update_masks std1 wds' [0] [] none = .ok wds' :=
  ⟨wupdate, update_masks_idempotent std1 wds wds' [0] [] none wupdate⟩

/-- C10: `update_masks` never changes the original dataframe, the row-ID
list, the target vector or the fixed categorical encoding table; only the
mask attributes (set to the supplied values) and the derived feature
matrices are modified. -/
theorem update_masks_frame_effect {V : Type} [LinearOrder V]
    (std_fn : List (Option ℚ) → ℚ) (ds ds' : CustomDataset V)
    (tr te : List ℕ) (va : Option (List ℕ))
    (h : update_masks std_fn ds tr te va = .ok ds') :
    ds'.original_data = ds.original_data ∧ ds'.ids = ds.ids
      ∧ ds'.y = ds.y ∧ ds'.encodings = ds.encodings
      ∧ ds'.train_mask = tr ∧ ds'.valid_mask = va ∧ ds'.test_mask = te := by
  obtain ⟨hds, -⟩ := update_masks_ok_elim h
  subst hds
  exact ⟨rfl, rfl, rfl, rfl, rfl, rfl, rfl⟩

/-- C10 witness: on the concrete dataset the original data, ids, targets and
encodings survive the mask update unchanged. -/
theorem update_masks_frame_effect_witness :
    update_masks std1 wds [0] [] none = .ok wds'
      ∧ wds'.original_data = wds.original_data
      ∧ wds'.encodings = wds.encodings :=
  ⟨wupdate,
   (update_masks_frame_effect std1 wds wds' [0] [] none wupdate).1,
   (update_masks_frame_effect std1 wds wds' [0] [] none wupdate).2.2.2.1⟩

/-- C4: the aggregate trial score over inner-fold scores equals
`mean(scores) / std(scores)` when more than one fold score exists, and equals
exactly the score of the single fold when only one exists (the standard deviation
being replaced by 1). Holds for every standard-deviation function `np_std`. -/
theorem inner_random_subsampling_aggregate (np_std : List ℚ → ℚ)
    (scores : List ℚ) (h : scores ≠ []) :
    (∀ s, scores = [s] → inner_random_subsampling np_std scores = s)
      ∧ (1 < scores.length →
          inner_random_subsampling np_std scores
            = np_mean scores / np_std scores) := by
  constructor
  · rintro s rfl
    simp [inner_random_subsampling, np_mean]
  · intro hl
    have hne : scores.length ≠ 1 := by omega
    simp [inner_random_subsampling, hne]

/-- C4 witness: a single inner-fold score of 3 aggregates to exactly 3, and a
two-score list aggregates to mean divided by std. -/
theorem inner_random_subsampling_aggregate_witness :
    ([(3 : ℚ)] ≠ [] ∧ inner_random_subsampling (fun _ => 1) [(3 : ℚ)] = 3)
      ∧ (1 < ([(1 : ℚ), 3]).length
         ∧ inner_random_subsampling (fun _ => 1) [(1 : ℚ), 3]
             = np_mean [(1 : ℚ), 3] / 1) :=
  ⟨⟨by simp,
    (inner_random_subsampling_aggregate (fun _ => 1) [(3 : ℚ)] (by simp)).1
      3 rfl⟩,
   ⟨by simp,
    (inner_random_subsampling_aggregate (fun _ => 1) [(1 : ℚ), 3]
      (by simp)).2 (by simp)⟩⟩

/-- C8: NNTrainer.fit clamps the effective batch size to the training-set
size when the configured batch size is larger, and creates the train loader
with `drop_last=True` exactly when the training-set size modulo the effective
batch size equals 1 (the final batch would hold a single row); consequently
the mini-batches of one epoch cover `n` rows, minus exactly the one dropped
row in that case. -/
theorem nn_fit_batch_size_policy (n bs : ℕ) (hn : 0 < n) (hbs : 0 < bs) :
    (n < bs → nn_effective_batch_size n bs = n)
      ∧ (bs ≤ n → nn_effective_batch_size n bs = bs)
      ∧ (nn_drop_last n bs = true
          ↔ n % nn_effective_batch_size n bs = 1)
      ∧ (dataloader_batches n (nn_effective_batch_size n bs)
            (nn_drop_last n bs)).sum
          = n - (if n % nn_effective_batch_size n bs = 1 then 1 else 0) := by
  have heff : 0 < nn_effective_batch_size n bs := by
    unfold nn_effective_batch_size
    split <;> omega
  refine ⟨?_, ?_, ?_, ?_⟩
  · intro h
    simp [nn_effective_batch_size, h]
  · intro h
    have : ¬ n < bs := by omega
    simp [nn_effective_batch_size, this]
  · simp [nn_drop_last]
  · set e := nn_effective_batch_size n bs with he
    have hmod := Nat.div_add_mod n e
    rw [Nat.mul_comm] at hmod
    unfold dataloader_batches nn_drop_last
    rw [← he]
    rcases Nat.lt_or_ge (n % e) 2 with h2 | h2
    · rcases Nat.lt_or_ge (n % e) 1 with h1 | h1
      · have h0 : n % e = 0 := by omega
        simp [h0, List.sum_replicate, smul_eq_mul]
        omega
      · have h1' : n % e = 1 := by omega
        simp [h1', List.sum_replicate, smul_eq_mul]
        omega
    · have h0 : n % e ≠ 0 := by omega
      have h1 : n % e ≠ 1 := by omega
      simp [h0, h1, List.sum_replicate, smul_eq_mul]
      omega

/-- C8 witness: 5 training rows with configured batch size 2: the effective
batch size stays 2, the final one-row batch is dropped, and one epoch serves
4 rows. -/
theorem nn_fit_batch_size_policy_witness :
    (0 < 5 ∧ 0 < 2)
      ∧ ((5 < 2 → nn_effective_batch_size 5 2 = 5)
        ∧ (2 ≤ 5 → nn_effective_batch_size 5 2 = 2)
        ∧ (nn_drop_last 5 2 = true ↔ 5 % nn_effective_batch_size 5 2 = 1)
        ∧ (dataloader_batches 5 (nn_effective_batch_size 5 2)
              (nn_drop_last 5 2)).sum
            = 5 - (if 5 % nn_effective_batch_size 5 2 = 1 then 1 else 0)) :=
  ⟨⟨by decide, by decide⟩, nn_fit_batch_size_policy 5 2 (by decide) (by decide)⟩

/-- C6 counterexample: with `k = 3` and a fold body whose fold 1 raises,
`nested_cross_valid` aborts with that exception — the final result is the
propagated error, not a report with 3 fold entries in which folds 0 and 2
completed: the fold loop of the Evaluator has no per-fold exception boundary. -/
theorem nested_cross_valid_aborts_on_fold_error :
    nested_cross_valid 3 c6_run_fold
      = .error "AUC undefined: only one class present in fold test set" := rfl

lemma fold_loop_comp_succ {ε ρ : Type} (run_fold : ℕ → Except ε ρ)
    (l : List ℕ) :
    fold_loop run_fold (l.map Nat.succ)
      = fold_loop (fun j => run_fold (j + 1)) l := by
  induction l with
  | nil => rfl
  | cons a l ih => simp only [List.map_cons, fold_loop, ih]

/-- C6 (amended): the Evaluator has no per-fold exception boundary: when the
first `i` folds succeed and fold `i` raises, `nested_cross_valid` with any
`k > i` folds propagates that exception, the remaining folds never execute,
and no per-fold failure entry is produced. -/
theorem nested_cross_valid_no_fold_boundary {ε ρ : Type}
    (run_fold : ℕ → Except ε ρ) (i m : ℕ) (e : ε)
    (hok : ∀ j < i, ∃ r, run_fold j = .ok r)
    (herr : run_fold i = .error e) :
    nested_cross_valid (i + 1 + m) run_fold = .error e := by
  revert hok herr
  induction i generalizing run_fold with
  | zero =>
    intro hok herr
    have h1 : 0 + 1 + m = m + 1 := by omega
    rw [h1]
    unfold nested_cross_valid
    rw [List.range_succ_eq_map]
    simp only [fold_loop, herr]
  | succ i ih =>
    intro hok herr
    have h1 : i + 1 + 1 + m = (i + 1 + m) + 1 := by omega
    rw [h1]
    unfold nested_cross_valid
    rw [List.range_succ_eq_map]
    obtain ⟨r0, hr0⟩ := hok 0 (by omega)
    simp only [fold_loop, hr0]
    have hrec := ih (fun j => run_fold (j + 1))
      (fun j hj => hok (j + 1) (by omega)) herr
    unfold nested_cross_valid at hrec
    rw [fold_loop_comp_succ, hrec]

/-- C6 witness: fold 0 succeeds, fold 1 raises, and the 3-fold run aborts
with the exception raised at fold 1. -/
theorem nested_cross_valid_no_fold_boundary_witness :
    c6_run_fold 1
        = .error "AUC undefined: only one class present in fold test set"
      ∧ nested_cross_valid (1 + 1 + 1) c6_run_fold
        = .error "AUC undefined: only one class present in fold test set" :=
  ⟨rfl,
   nested_cross_valid_no_fold_boundary c6_run_fold 1 1
     "AUC undefined: only one class present in fold test set"
     (by
       intro j hj
       have hj0 : j = 0 := by omega
       subst hj0
       exact ⟨0, rfl⟩)
     rfl⟩

/-- C7 counterexample: NNTrainer.fit does not stop training when the early
stopper fires. With 4 configured epochs, patience 1 and a constant validation
loss, the stopper signals at epoch 1 (0-indexed flag list `[false, true,
true, true]`), yet all 4 training epochs execute, and the temporary
checkpoint file is still present when fit returns (it is only deleted by
NNEvaluator after the whole evaluation). -/
theorem nn_fit_continues_after_early_stop :
    (nn_fit 4 1 Nat.succ (fun _ => (0 : ℕ)) 0 true).train_steps = 4
      ∧ (nn_fit 4 1 Nat.succ (fun _ => (0 : ℕ)) 0 true).epoch_flags
          = [false, true, true, true]
      ∧ (nn_fit 4 1 Nat.succ (fun _ => (0 : ℕ)) 0 true).checkpoint_file
          = some 1 := by
  refine ⟨by decide, by decide, by decide⟩

lemma torch_fit_loop_flags {L M : Type} [LinearOrder L] (train_step : M → M)
    (valid_loss : M → L) :
    ∀ (fuel : ℕ) (m : M) (es : EarlyStopper L M),
      (torch_fit_loop train_step valid_loss fuel m es).2.2
          = List.replicate fuel false
        ∨ ∃ j, j + 1 ≤ fuel
            ∧ (torch_fit_loop train_step valid_loss fuel m es).2.2
                = List.replicate j false ++ [true] := by
  intro fuel
  induction fuel with
  | zero => intro m es; left; rfl
  | succ fuel ih =>
    intro m es
    unfold torch_fit_loop
    simp only []
    by_cases hstop :
        (es.step (valid_loss (train_step m)) (train_step m)).early_stop
    · rw [if_pos hstop]
      right
      exact ⟨0, by omega, rfl⟩
    · rw [if_neg hstop]
      rcases ih (train_step m)
          (es.step (valid_loss (train_step m)) (train_step m)) with h | ⟨j, hj, h⟩
      · left
        simp [h, List.replicate_succ]
      · right
        exact ⟨j + 1, by omega, by simp [h, List.replicate_succ]⟩

/-- C7 (amended): in TorchCustomModel.fit the claim holds: the epoch loop
breaks at the first epoch whose validation step signals early stop — the
flag trace is either all-false over `max_epochs` epochs (the stopper, which
fires after `patience` consecutive epochs without improvement, never fired)
or `j` false flags followed by a single true flag, after which no further
training epoch runs; the best-seen weights held in the checkpoint of the early
stopper are loaded into the model, and the temporary checkpoint file is
removed once training finishes. In NNTrainer.fit, by contrast, the loop
never breaks and the checkpoint is not removed (see the counterexample). -/
theorem torch_fit_early_stopping {L M : Type} [LinearOrder L]
    (max_epochs patience : ℕ) (train_step : M → M) (valid_loss : M → L)
    (m0 : M) :
    ((torch_fit max_epochs patience train_step valid_loss m0).epoch_flags
          = List.replicate max_epochs false
        ∨ ∃ j, j + 1 ≤ max_epochs
            ∧ (torch_fit max_epochs patience train_step valid_loss
                m0).epoch_flags
              = List.replicate j false ++ [true])
      ∧ (torch_fit max_epochs patience train_step valid_loss
          m0).checkpoint_file = none
      ∧ (torch_fit max_epochs patience train_step valid_loss m0).model
          = ((torch_fit_loop train_step valid_loss max_epochs m0
                (EarlyStopper.start patience)).2.1.checkpoint.getD
              (torch_fit_loop train_step valid_loss max_epochs m0
                (EarlyStopper.start patience)).1) :=
  ⟨torch_fit_loop_flags train_step valid_loss max_epochs m0
      (EarlyStopper.start patience),
   rfl, rfl⟩

lemma rint_nonneg {q : ℚ} (h : 0 ≤ q) : 0 ≤ rint q := by
  have hf : (0 : ℤ) ≤ ⌊q⌋ := Int.floor_nonneg.mpr h
  simp only [rint]
  split_ifs <;> omega

lemma rint_le_int {q : ℚ} {z : ℤ} (h : q ≤ z) : rint q ≤ z := by
  have hf : ⌊q⌋ ≤ z := by
    have h2 := Int.floor_le_floor h
    simpa using h2
  have hstep : ¬ q - (⌊q⌋ : ℚ) < 1 / 2 → ⌊q⌋ + 1 ≤ z := by
    intro hr
    push_neg at hr
    have hfl : (⌊q⌋ : ℚ) ≤ q := Int.floor_le q
    have hq : (⌊q⌋ : ℚ) < (z : ℚ) := by linarith
    have hzz : ⌊q⌋ < z := by exact_mod_cast hq
    omega
  simp only [rint]
  split_ifs with h1 h2 h3
  · exact hf
  · exact hstep h1
  · exact hf
  · exact hstep h1

lemma sample_count_le {n glen total : ℕ} (htot : 0 < total) (hn : n ≤ total) :
    sample_count n glen total ≤ glen := by
  have hq : ((n : ℚ) * (glen : ℚ)) / (total : ℚ) ≤ ((glen : ℤ) : ℚ) := by
    rw [div_le_iff₀ (by positivity)]
    have hcast : (n : ℚ) ≤ (total : ℚ) := by exact_mod_cast hn
    have hg : (0 : ℚ) ≤ (glen : ℚ) := by positivity
    push_cast
    nlinarith
  have hle := rint_le_int hq
  unfold sample_count
  omega

lemma mem_group_rows {τ κ : Type} [DecidableEq κ] {key : SRow τ → κ}
    {df : List (SRow τ)} {k : κ} {r : SRow τ} :
    r ∈ group_rows key df k ↔ r ∈ df ∧ key r = k := by
  simp [group_rows, List.mem_filter]

lemma filter_flatten_map {κ α : Type} (p : α → Bool) (F : κ → List α) :
    ∀ l : List κ,
      ((l.map F).flatten).filter p
        = (l.map (fun k => (F k).filter p)).flatten := by
  intro l
  induction l with
  | nil => rfl
  | cons a t ih => simp [List.filter_append, ih]

lemma flatten_map_eq_nil {κ α : Type} (F : κ → List α) :
    ∀ l : List κ, (∀ x ∈ l, F x = []) → (l.map F).flatten = [] := by
  intro l
  induction l with
  | nil => simp
  | cons a t ih =>
    intro h
    simp only [List.map_cons, List.flatten_cons, h a (by simp),
      List.nil_append]
    exact ih (fun x hx => h x (by simp [hx]))

lemma flatten_map_single {κ α : Type} (F : κ → List α) (k : κ) :
    ∀ l : List κ, l.Nodup → k ∈ l → (∀ x ∈ l, x ≠ k → F x = []) →
      (l.map F).flatten = F k := by
  intro l
  induction l with
  | nil => intro _ hk; exact absurd hk (by simp)
  | cons a t ih =>
    intro hnd hk h0
    have hnd' := List.nodup_cons.mp hnd
    rcases List.mem_cons.mp hk with rfl | hkt
    · have ht : ∀ x ∈ t, F x = [] := by
        intro x hx
        refine h0 x (by simp [hx]) ?_
        intro hxa
        exact hnd'.1 (hxa ▸ hx)
      simp [flatten_map_eq_nil F t ht]
    · have ha : F a = [] := by
        refine h0 a (by simp) ?_
        intro haa
        exact hnd'.1 (haa ▸ hkt)
      simp only [List.map_cons, List.flatten_cons, ha, List.nil_append]
      exact ih hnd'.2 hkt (fun x hx hxk => h0 x (by simp [hx]) hxk)

lemma stratified_filter_eq {τ κ : Type} [DecidableEq κ]
    (key : SRow τ → κ) (pick : List (SRow τ) → ℕ → List (SRow τ))
    (df : List (SRow τ)) (n : ℕ)
    (hpick : ∀ l m, m ≤ l.length →
      (pick l m).length = m ∧ (pick l m).Subperm l)
    (hn : n ≤ df.length) (k : κ) (hk : k ∈ strat_groups key df) :
    (((strat_groups key df).map (fun x =>
        pick (group_rows key df x)
          (sample_count n (group_rows key df x).length df.length))).flatten).filter
        (fun r => decide (key r = k))
      = pick (group_rows key df k)
          (sample_count n (group_rows key df k).length df.length) := by
  have htot : 0 < df.length := by
    rcases df with _ | ⟨a, t⟩
    · simp [strat_groups] at hk
    · simp
  have hmle : ∀ x : κ,
      sample_count n (group_rows key df x).length df.length
        ≤ (group_rows key df x).length :=
    fun x => sample_count_le htot hn
  have hmem : ∀ x : κ, ∀ r ∈ pick (group_rows key df x)
      (sample_count n (group_rows key df x).length df.length), key r = x := by
    intro x r hr
    have hsub := (hpick _ _ (hmle x)).2.subset hr
    exact (mem_group_rows.mp hsub).2
  have hnil : ∀ x ∈ strat_groups key df, x ≠ k →
      ((pick (group_rows key df x)
        (sample_count n (group_rows key df x).length df.length)).filter
        (fun r => decide (key r = k))) = [] := by
    intro x hx hxk
    rw [List.filter_eq_nil_iff]
    intro r hr
    simp only [decide_eq_true_eq]
    rw [hmem x r hr]
    exact hxk
  have hself : ((pick (group_rows key df k)
      (sample_count n (group_rows key df k).length df.length)).filter
      (fun r => decide (key r = k)))
      = pick (group_rows key df k)
          (sample_count n (group_rows key df k).length df.length) := by
    rw [List.filter_eq_self]
    intro r hr
    simp [hmem k r hr]
  rw [filter_flatten_map]
  rw [flatten_map_single
    (fun x => (pick (group_rows key df x)
      (sample_count n (group_rows key df x).length df.length)).filter
      (fun r => decide (key r = k)))
    k (strat_groups key df) (List.nodup_dedup _) hk hnil, hself]

lemma stratified_sample_mem {τ : Type} [DecidableEq τ]
    (qcut : ℕ → List τ → τ → ℕ)
    (pick : List (SRow τ) → ℕ → List (SRow τ))
    (shuffle : List (SRow τ) → List (SRow τ))
    (df : List (SRow τ)) (n quantiles : ℕ)
    (hpick : ∀ l m, m ≤ l.length →
      (pick l m).length = m ∧ (pick l m).Subperm l)
    (hshuffle : ∀ l, (shuffle l).Perm l)
    (hn : n ≤ df.length) :
    ∀ r ∈ stratified_sample qcut pick shuffle df n quantiles, r ∈ df := by
  intro r hr
  have hres : stratified_sample qcut pick shuffle df n quantiles
      = shuffle (((strat_groups (strat_key qcut quantiles df) df).map (fun x =>
          pick (group_rows (strat_key qcut quantiles df) df x)
            (sample_count n
              (group_rows (strat_key qcut quantiles df) df x).length
              df.length))).flatten) := rfl
  rw [hres] at hr
  have hr2 := (hshuffle _).mem_iff.mp hr
  obtain ⟨l, hl, hrl⟩ := List.mem_flatten.mp hr2
  obtain ⟨x, hx, rfl⟩ := List.mem_map.mp hl
  have htot : 0 < df.length := by
    rcases df with _ | ⟨a, t⟩
    · simp [strat_groups] at hx
    · simp
  have hsub := (hpick _ _ (sample_count_le htot hn)).2.subset hrl
  exact (mem_group_rows.mp hsub).1

/-- C5: `stratified_sample` draws exactly
`int(rint(n * stratum_size / total_size))` rows, without replacement, from
each stratum (the sampled rows of each stratum are a sub-multiset of that
stratum) and returns their shuffled concatenation; the strata are the raw
target values when the target has at most 10 distinct values and the
quantile-bucket labels (over `quantiles` buckets) when it has more than 10.
Randomness is abstracted: the conclusion holds for every `pick` that draws
the requested number of distinct rows and every permutation `shuffle`. -/
theorem stratified_sample_stratum_counts {τ : Type} [DecidableEq τ]
    (qcut : ℕ → List τ → τ → ℕ)
    (pick : List (SRow τ) → ℕ → List (SRow τ))
    (shuffle : List (SRow τ) → List (SRow τ))
    (df : List (SRow τ)) (n quantiles : ℕ)
    (hpick : ∀ l m, m ≤ l.length →
      (pick l m).length = m ∧ (pick l m).Subperm l)
    (hshuffle : ∀ l, (shuffle l).Perm l)
    (hn : n ≤ df.length) :
    (∀ k ∈ strat_groups (strat_key qcut quantiles df) df,
        ((stratified_sample qcut pick shuffle df n quantiles).filter
            (fun r => decide (strat_key qcut quantiles df r = k))).length
          = sample_count n
              (group_rows (strat_key qcut quantiles df) df k).length
              df.length
        ∧ ((stratified_sample qcut pick shuffle df n quantiles).filter
            (fun r => decide (strat_key qcut quantiles df r = k))).Subperm
            (group_rows (strat_key qcut quantiles df) df k))
      ∧ ((df.map SRow.target).dedup.length ≤ 10 →
          strat_key qcut quantiles df = fun r => Sum.inl r.target)
      ∧ (10 < (df.map SRow.target).dedup.length →
          strat_key qcut quantiles df
            = fun r => Sum.inr (qcut quantiles (df.map SRow.target) r.target)) := by
  refine ⟨?_, ?_, ?_⟩
  · intro k hk
    have htot : 0 < df.length := by
      rcases df with _ | ⟨a, t⟩
      · simp [strat_groups] at hk
      · simp
    have hres : stratified_sample qcut pick shuffle df n quantiles
        = shuffle (((strat_groups (strat_key qcut quantiles df) df).map (fun x =>
            pick (group_rows (strat_key qcut quantiles df) df x)
              (sample_count n
                (group_rows (strat_key qcut quantiles df) df x).length
                df.length))).flatten) := rfl
    have hperm : ((stratified_sample qcut pick shuffle df n quantiles).filter
          (fun r => decide (strat_key qcut quantiles df r = k))).Perm
        ((((strat_groups (strat_key qcut quantiles df) df).map (fun x =>
            pick (group_rows (strat_key qcut quantiles df) df x)
              (sample_count n
                (group_rows (strat_key qcut quantiles df) df x).length
                df.length))).flatten).filter
          (fun r => decide (strat_key qcut quantiles df r = k))) := by
      rw [hres]
      exact (hshuffle _).filter _
    have heq := stratified_filter_eq (strat_key qcut quantiles df) pick df n
      hpick hn k hk
    constructor
    · rw [hperm.length_eq, heq,
        (hpick _ _ (sample_count_le htot hn)).1]
    · exact hperm.subperm.trans
        (heq ▸ (hpick _ _ (sample_count_le htot hn)).2)
  · intro h10
    unfold strat_key
    rw [if_neg (by omega)]
  · intro h10
    unfold strat_key
    rw [if_pos h10]

lemma pick_take_spec {τ : Type} : ∀ (l : List (SRow τ)) (m : ℕ),
    m ≤ l.length → (pick_take l m).length = m ∧ (pick_take l m).Subperm l := by
  intro l m h
  refine ⟨?_, (List.take_sublist m l).subperm⟩
  simp only [pick_take, List.length_take]
  omega

/-- C5 witness: four rows with two equal-size strata and a requested size of
2: the sampled count of stratum 0 is `rint(2*2/4) = 1`. -/
theorem stratified_sample_stratum_counts_witness :
    (2 ≤ wsdf.length
      ∧ Sum.inl 0 ∈ strat_groups (strat_key qcut0 4 wsdf) wsdf)
      ∧ ((stratified_sample qcut0 pick_take id wsdf 2 4).filter
          (fun r => decide (strat_key qcut0 4 wsdf r = Sum.inl 0))).length
        = sample_count 2
            (group_rows (strat_key qcut0 4 wsdf) wsdf (Sum.inl 0)).length
            wsdf.length :=
  ⟨⟨by decide, by
      have hg : strat_groups (strat_key qcut0 4 wsdf) wsdf
          = [Sum.inl 0, Sum.inl 1] := by decide
      rw [hg]
      simp⟩,
   ((stratified_sample_stratum_counts qcut0 pick_take id wsdf 2 4
      pick_take_spec (fun l => List.Perm.refl l) (by decide)).1
      (Sum.inl 0) (by
        have hg : strat_groups (strat_key qcut0 4 wsdf) wsdf
            = [Sum.inl 0, Sum.inl 1] := by decide
        rw [hg]
        simp)).1⟩

/-- C9: every row of the input dataframe lands in exactly one of the two
partitions produced by `split_train_test`: in the train partition and not the
test partition, or in the test partition and not the train partition
(assuming distinct pandas index labels, as `df.drop` removes rows by
label). -/
theorem split_train_test_partition {τ : Type} [DecidableEq τ]
    (qcut : ℕ → List τ → τ → ℕ)
    (pick : List (SRow τ) → ℕ → List (SRow τ))
    (shuffle : List (SRow τ) → List (SRow τ))
    (df : List (SRow τ)) (n quantiles : ℕ)
    (hlab : (df.map SRow.label).Nodup)
    (hpick : ∀ l m, m ≤ l.length →
      (pick l m).length = m ∧ (pick l m).Subperm l)
    (hshuffle : ∀ l, (shuffle l).Perm l)
    (hn : n ≤ df.length) :
    ∀ r ∈ df,
      (r ∈ (split_train_test qcut pick shuffle df n quantiles).1
        ∧ r ∉ (split_train_test qcut pick shuffle df n quantiles).2)
      ∨ (r ∈ (split_train_test qcut pick shuffle df n quantiles).2
        ∧ r ∉ (split_train_test qcut pick shuffle df n quantiles).1) := by
  intro r hr
  have hfst : (split_train_test qcut pick shuffle df n quantiles).1
      = df.filter (fun x => decide (x.label ∉
          (stratified_sample qcut pick shuffle df n quantiles).map
            SRow.label)) := rfl
  have hsnd : (split_train_test qcut pick shuffle df n quantiles).2
      = stratified_sample qcut pick shuffle df n quantiles := rfl
  by_cases hmem : r.label ∈
      (stratified_sample qcut pick shuffle df n quantiles).map SRow.label
  · right
    constructor
    · rw [hsnd]
      obtain ⟨t, ht, htl⟩ := List.mem_map.mp hmem
      have htdf : t ∈ df := stratified_sample_mem qcut pick shuffle df n
        quantiles hpick hshuffle hn t ht
      have hteq : t = r := List.inj_on_of_nodup_map hlab htdf hr htl
      exact hteq ▸ ht
    · rw [hfst]
      intro hc
      have hc2 := (List.mem_filter.mp hc).2
      simp only [decide_eq_true_eq] at hc2
      exact hc2 hmem
  · left
    constructor
    · rw [hfst]
      exact List.mem_filter.mpr ⟨hr, by simpa using hmem⟩
    · rw [hsnd]
      intro hc
      exact hmem (List.mem_map.mpr ⟨r, hc, rfl⟩)

/-- C9 witness: on the concrete four-row frame, row 0 lands in exactly one of
the two produced partitions. -/
theorem split_train_test_partition_witness :
    ((wsdf.map SRow.label).Nodup ∧ (⟨0, 0⟩ : SRow ℕ) ∈ wsdf)
      ∧ (((⟨0, 0⟩ : SRow ℕ)
            ∈ (split_train_test qcut0 pick_take id wsdf 2 4).1
          ∧ (⟨0, 0⟩ : SRow ℕ)
            ∉ (split_train_test qcut0 pick_take id wsdf 2 4).2)
        ∨ ((⟨0, 0⟩ : SRow ℕ)
            ∈ (split_train_test qcut0 pick_take id wsdf 2 4).2
          ∧ (⟨0, 0⟩ : SRow ℕ)
            ∉ (split_train_test qcut0 pick_take id wsdf 2 4).1)) :=
  ⟨⟨by decide, by simp [wsdf]⟩,
   split_train_test_partition qcut0 pick_take id wsdf 2 4 (by decide)
     pick_take_spec (fun l => List.Perm.refl l) (by decide) ⟨0, 0⟩
     (by simp [wsdf])⟩

end Petale
